import Mathlib

/-!
Verification of the song-analysis backend (`src/backend/utils.py`,
`src/backend/app.py`, `src/backend/config.py`).

Strings are modelled as `List Char`.  Python's `str.find`, slicing,
`str.replace`, `str.strip`, `str.isspace` and the default delimiter regex
of `split_artist_names` are embedded character by character.  Fallible
Python code is modelled with `Except PyErr` / result-and-error pairs, and
the `while` loops of `app.py` are modelled with an explicit fuel argument
(`none` = the loop is still running after `fuel` iterations).
-/

namespace SongAnalysis

/-- Python whitespace characters: the set recognised by `str.isspace`,
`str.strip` and the regex class `\s` (ASCII whitespace, the C1 controls
accepted by Python, and the Unicode space characters). -/
def pyWs (c : Char) : Bool :=
  c.toNat ∈ [9, 10, 11, 12, 13, 28, 29, 30, 31, 32, 133, 160, 5760,
    8192, 8193, 8194, 8195, 8196, 8197, 8198, 8199, 8200, 8201, 8202,
    8232, 8233, 8239, 8287, 12288]

/-- Python `str.isspace`: true iff the string is nonempty and every
character is whitespace. -/
def pyIsSpace (s : List Char) : Bool :=
  !s.isEmpty && s.all pyWs

/-- Python `str.strip()`: remove leading and trailing whitespace. -/
def pyStrip (s : List Char) : List Char :=
  ((s.dropWhile pyWs).reverse.dropWhile pyWs).reverse

/-- Python `hay.find(pat)`: index of the leftmost occurrence of `pat` in
`hay`, or `none` where Python returns `-1`. -/
def pyFind : List Char → List Char → Option Nat
  | [], pat => if pat.isPrefixOf ([] : List Char) then some 0 else none
  | c :: t, pat =>
    if pat.isPrefixOf (c :: t) then some 0
    else (pyFind t pat).map (· + 1)

/-- Python slice `s[a:b]` for nonnegative bounds (out-of-range bounds are
clamped, and `b ≤ a` yields the empty string). -/
def pySlice (s : List Char) (a b : Nat) : List Char :=
  (s.take b).drop a

/-- Embedding of `utils.extract_lyrics` (src/backend/utils.py lines
246-271): the start index is just after the first occurrence of
`start_pattern` (0 if absent); the end index is the first occurrence of
`end_pattern` searched from the beginning of `page_data` (its length if
absent); the result is the slice between them. -/
def extract_lyrics (page_data start_pattern end_pattern : List Char) :
    List Char :=
  let start :=
    match pyFind page_data start_pattern with
    | none => 0
    | some i => i + start_pattern.length
  let stop :=
    match pyFind page_data end_pattern with
    | none => page_data.length
    | some i => i
  pySlice page_data start stop

/-- Spec-side variant of `extract_lyrics`, following the spec's words
("Locate `endPattern` *after* the chosen start"): the end marker is
searched only in the region after the chosen start position, unlike the
source, which searches from the beginning of the blob. -/
def extract_lyrics_spec (page_data start_pattern end_pattern : List Char) :
    List Char :=
  let start :=
    match pyFind page_data start_pattern with
    | none => 0
    | some i => i + start_pattern.length
  let stop :=
    match pyFind (page_data.drop start) end_pattern with
    | none => page_data.length
    | some i => start + i
  pySlice page_data start stop

/-- Python `s.replace(old, new)` for a nonempty `old`, written with a fuel
argument (`s.length` suffices, one unit per emitted character) so that it
evaluates by kernel reduction: scan left to right, replacing each
non-overlapping occurrence of `old` with `new`.  An empty `old` leaves the
string unchanged; the replacement tables in this repository only contain
nonempty targets. -/
def strReplaceFuel : Nat → List Char → List Char → List Char → List Char
  | 0, s, _, _ => s
  | _ + 1, [], _, _ => []
  | fuel + 1, c :: t, old, new =>
    if old ≠ [] ∧ old.isPrefixOf (c :: t) then
      new ++ strReplaceFuel fuel ((c :: t).drop old.length) old new
    else
      c :: strReplaceFuel fuel t old new

/-- Python `s.replace(old, new)` (see `strReplaceFuel`). -/
def strReplace (s old new : List Char) : List Char :=
  strReplaceFuel s.length s old new

/-- The replacement table `unicode_dict` of src/backend/config.py:
non-breaking space, right single quotation mark, zero-width space and
Cyrillic small letter ie, each mapped to plain text. -/
def unicode_dict : List (List Char × List Char) :=
  [(['\u00A0'], [' ']), (['\u2019'], ['\'']), (['\u200B'], [' ']),
    (['\u0435'], ['e'])]

/-- Embedding of `utils.remove_unicode` (src/backend/utils.py lines
370-383): an empty or whitespace-only input is returned unchanged;
otherwise every key of the table is replaced by its value, in table
order. -/
def remove_unicode (content : List Char)
    (dict : List (List Char × List Char)) : List Char :=
  if content.length = 0 ∨ pyIsSpace content then content
  else dict.foldl (fun acc kv => strReplace acc kv.1 kv.2) content

/-- Python errors that the embedded functions can raise. -/
inductive PyErr where
  | valueError
  | keyError (k : List Char)
  | typeError
  | exception
  | indexError
deriving DecidableEq

/-- A compiled regular expression, abstracted to what `utils.insert_spaces`
consults: its number of capturing groups (`re.compile(pattern).groups`)
and the total effect of `re.sub(pattern, "\x5c1 \x5c2", s)` when the
pattern does have the two groups the template refers to. -/
structure Regex where
  groups : Nat
  sub12 : List Char → List Char

/-- The pattern loop of `utils.insert_spaces`: a pattern with more than
two groups raises `ValueError`, which the generic handler re-raises as a
plain `Exception`; a pattern with fewer than two groups makes `re.sub`
raise `re.error` (the replacement template `\x5c1 \x5c2` is compiled
eagerly and names group 2), which is re-raised as `ValueError`; a
two-group pattern is substituted and the loop continues. -/
def insert_spaces_go : List Char → List Regex → Except PyErr (List Char)
  | content, [] => .ok content
  | content, p :: rest =>
    if p.groups > 2 then .error .exception
    else if p.groups < 2 then .error .valueError
    else insert_spaces_go (p.sub12 content) rest

/-- Embedding of `utils.insert_spaces` (src/backend/utils.py lines
335-367): empty or whitespace-only content is returned at once, before
any pattern is examined; otherwise the patterns are processed in order by
`insert_spaces_go`. -/
def insert_spaces (content : List Char) (regex : List Regex) :
    Except PyErr (List Char) :=
  if content.length = 0 ∨ pyIsSpace content then .ok content
  else insert_spaces_go content regex

/-- One match attempt of the default delimiter regex of
`utils.split_artist_names` at the head of `cs`.  The compiled pattern is
`\s*` ++ `,|&` ++ `\s*`, which by alternation precedence is
`\s*,` or else `&\s*`: a whitespace run followed by a comma, tried first,
or an ampersand with trailing whitespace absorbed.  Returns the length of
the match, or `none` when neither alternative matches here. -/
def delim_match (cs : List Char) : Option Nat :=
  let run := (cs.takeWhile pyWs).length
  if (cs.drop run).head? = some ',' then some (run + 1)
  else if cs.head? = some '&' then some (1 + (cs.tail.takeWhile pyWs).length)
  else none

/-- `re.split` with the delimiter regex of `utils.split_artist_names`:
scan left to right, emitting the text between matches as pieces.  The
fuel argument (`cs.length + 1` suffices, every step consumes a character
or ends the scan) keeps the recursion structural. -/
def resplit_aux : Nat → List Char → List Char → List (List Char)
  | 0, rest, acc => [acc.reverse ++ rest]
  | fuel + 1, cs, acc =>
    match cs with
    | [] => [acc.reverse]
    | c :: t =>
      match delim_match (c :: t) with
      | some n => acc.reverse :: resplit_aux fuel ((c :: t).drop n) []
      | none => resplit_aux fuel t (c :: acc)

/-- Embedding of `utils.split_artist_names` (src/backend/utils.py lines
77-93) at its default delimiter pattern `,|&`: empty or whitespace-only
input yields `[]`; otherwise the stripped input is split on the delimiter
regex and each piece is stripped, dropping pieces that become empty. -/
def split_artist_names (artist_names : List Char) : List (List Char) :=
  if artist_names.length = 0 ∨ pyIsSpace artist_names then []
  else
    let stripped := pyStrip artist_names
    let pieces := resplit_aux (stripped.length + 1) stripped []
    (pieces.map pyStrip).filter (fun t => t ≠ [])

/-- Decoded JSON values, the result of `response.json()`. -/
inductive Json where
  | jnull
  | jbool (b : Bool)
  | jnum (n : Int)
  | jstr (s : List Char)
  | jarr (xs : List Json)
  | jobj (fields : List (List Char × Json))

/-- Python dict lookup on the field list of a JSON object. -/
def jlookup : List (List Char × Json) → List Char → Option Json
  | [], _ => none
  | (k, v) :: rest, key => if k = key then some v else jlookup rest key

/-- Python truthiness of a JSON value. -/
def pyTruthy : Json → Bool
  | .jnull => false
  | .jbool b => b
  | .jnum n => n ≠ 0
  | .jstr s => s ≠ []
  | .jarr xs => !xs.isEmpty
  | .jobj fs => !fs.isEmpty

/-- One song record as assembled by `utils.parse_song`: the five-element
list `[title, featured_artists, primary_artists, path, lyrics]`. -/
structure SongRec where
  title : List Char
  featured_artists : List (List Char)
  primary_artists : List (List Char)
  path : List Char
  lyrics : List Char
deriving DecidableEq

/-- Embedding of `utils.get_artist_list` (src/backend/utils.py lines
160-179): for each metadata dict with a truthy `name` field, the name is
unicode-cleaned and split into individual tokens; all tokens are
concatenated in order.  Entries without a `name` key or with a falsy one
are skipped; a non-dict entry or a non-string name, on which the Python
dict operations would fail, is modelled as `TypeError`. -/
def get_artist_list : List Json → Except PyErr (List (List Char))
  | [] => .ok []
  | m :: rest =>
    match m with
    | .jobj fs =>
      match jlookup fs "name".data with
      | some v =>
        if pyTruthy v then
          match v with
          | .jstr s =>
            match get_artist_list rest with
            | .ok tail =>
              .ok (split_artist_names (remove_unicode s unicode_dict) ++ tail)
            | .error e => .error e
          | _ => .error .typeError
        else get_artist_list rest
      | none => get_artist_list rest
    | _ => .error .typeError

/-- Embedding of `utils.song_lyrics` for one song: an empty path raises
`ValueError` before any request; otherwise the network fetch and cleaning
pipeline is abstracted by the `fetch` oracle (a transport or cleaning
failure is a `fetch` error). -/
def song_lyrics (fetch : List Char → Except PyErr (List Char))
    (path : List Char) : Except PyErr (List Char) :=
  if path = [] then .error .valueError else fetch path

/-- The per-hit loop of `utils.parse_song`: each hit's `result` dict is
read (a missing `result` key is a `KeyError`, re-raised by the handler),
the title and path default to the empty string when absent or falsy, the
artist lists are built by `get_artist_list` when present and truthy
(featured artists only when the flag is set), and the lyrics come from
`song_lyrics`.  Records are appended to `acc` one hit at a time; the pair
returned is the accumulator content together with the raised error, if
any, so a mid-loop error keeps the records already appended. -/
def parse_hits (fetch : List Char → Except PyErr (List Char))
    (features_flag : Bool) :
    List Json → List SongRec → List SongRec × Option PyErr
  | [], acc => (acc, none)
  | song :: rest, acc =>
    match song with
    | .jobj sfs =>
      match jlookup sfs "result".data with
      | none => (acc, some (.keyError "result".data))
      | some (.jobj rfs) =>
        let titleE : Except PyErr (List Char) :=
          match jlookup rfs "full_title".data with
          | some v =>
            if pyTruthy v then
              match v with
              | .jstr s => .ok (remove_unicode s unicode_dict)
              | _ => .error .typeError
            else .ok []
          | none => .ok []
        let pathE : Except PyErr (List Char) :=
          match jlookup rfs "path".data with
          | some v =>
            if pyTruthy v then
              match v with
              | .jstr s => .ok s
              | _ => .error .typeError
            else .ok []
          | none => .ok []
        let primE : Except PyErr (List (List Char)) :=
          match jlookup rfs "primary_artists".data with
          | some v =>
            if pyTruthy v then
              match v with
              | .jarr xs => get_artist_list xs
              | _ => .error .typeError
            else .ok []
          | none => .ok []
        let featE : Except PyErr (List (List Char)) :=
          match jlookup rfs "featured_artists".data with
          | some v =>
            if features_flag && pyTruthy v then
              match v with
              | .jarr xs => get_artist_list xs
              | _ => .error .typeError
            else .ok []
          | none => .ok []
        match titleE, pathE, primE, featE with
        | .ok title, .ok path, .ok prim, .ok feat =>
          match song_lyrics fetch path with
          | .ok lyr =>
            parse_hits fetch features_flag rest
              (acc ++ [⟨title, feat, prim, path, lyr⟩])
          | .error e => (acc, some e)
        | .error e, _, _, _ => (acc, some e)
        | _, .error e, _, _ => (acc, some e)
        | _, _, .error e, _ => (acc, some e)
        | _, _, _, .error e => (acc, some e)
      | some _ => (acc, some .typeError)
    | _ => (acc, some .typeError)

/-- Embedding of `utils.parse_song` (src/backend/utils.py lines 96-157).
The input is the decoded body (`none` when `response.json()` raised, which
is re-raised as `ValueError`); a decoded object without a top-level
`response` key raises `ValueError` before the hit loop runs; the
`response` value must be a dict with a `hits` list (a missing `hits` key
is a `KeyError`); dict operations on values of the wrong shape are
modelled as `TypeError`.  The result pairs the final content of the
`song_data` accumulator with the raised error, if any. -/
def parse_song (body : Option Json) (song_data : List SongRec)
    (features_flag : Bool)
    (fetch : List Char → Except PyErr (List Char)) :
    List SongRec × Option PyErr :=
  match body with
  | none => (song_data, some .valueError)
  | some (.jobj fs) =>
    match jlookup fs "response".data with
    | some (.jobj respFs) =>
      match jlookup respFs "hits".data with
      | some (.jarr hits) => parse_hits fetch features_flag hits song_data
      | some _ => (song_data, some .typeError)
      | none => (song_data, some (.keyError "hits".data))
    | some _ => (song_data, some .typeError)
    | none => (song_data, some .valueError)
  | some _ => (song_data, some .typeError)

/-- Python dict insert-or-increment, `artist_count[a] = 1` /
`artist_count[a] += 1`, on an insertion-ordered association list: a new
key is appended at the end with count 1, an existing key's count is
incremented in place. -/
def bump : List (List Char × Nat) → List Char → List (List Char × Nat)
  | [], a => [(a, 1)]
  | (k, c) :: rest, a =>
    if k = a then (k, c + 1) :: rest else (k, c) :: bump rest a

/-- One artist-list pass of the `app.get_featured_artists` loop body:
each name is stripped and counted. -/
def count_artists (m : List (List Char × Nat)) (names : List (List Char)) :
    List (List Char × Nat) :=
  names.foldl (fun acc a => bump acc (pyStrip a)) m

/-- The counting part of one loop iteration: the song's primary artists
are counted first, then its featured artists. -/
def count_song (m : List (List Char × Nat)) (s : SongRec) :
    List (List Char × Nat) :=
  count_artists (count_artists m s.primary_artists) s.featured_artists

/-- State of the `while` loop of `app.get_featured_artists`: the
`artist_count` dict and the running `song_index`. -/
structure AggState where
  artist_count : List (List Char × Nat)
  song_index : Nat
deriving DecidableEq

/-- One iteration of the loop body of `app.get_featured_artists`
(src/backend/app.py lines 85-103): with an empty `song_data` both artist
lists stay empty and only `song_index` advances; otherwise
`song_data[song_index]` is read (an out-of-range index raises
`IndexError`) and its artists are counted. -/
def featured_step (song_data : List SongRec) (st : AggState) :
    Except PyErr AggState :=
  if song_data.isEmpty then .ok ⟨st.artist_count, st.song_index + 1⟩
  else
    match song_data.get? st.song_index with
    | none => .error .indexError
    | some song => .ok ⟨count_song st.artist_count song, st.song_index + 1⟩

/-- The `while len(artist_count) <= features_limit` loop of
`app.get_featured_artists`, run for at most `fuel` iterations: `none`
means the loop is still running after `fuel` iterations, `some` is the
outcome (the final `artist_count`, or the raised error). -/
def featured_loop (song_data : List SongRec) (features_limit : Nat) :
    Nat → AggState → Option (Except PyErr (List (List Char × Nat)))
  | 0, _ => none
  | fuel + 1, st =>
    if st.artist_count.length ≤ features_limit then
      match featured_step song_data st with
      | .error e => some (.error e)
      | .ok st2 => featured_loop song_data features_limit fuel st2
    else some (.ok st.artist_count)

/-- Embedding of the aggregation part of `app.get_featured_artists`
(src/backend/app.py lines 70-105), given the `song_data` that
`get_songs` fetched.  The queried artist `name` drives only the fetch in
the source; the aggregation loop never consults it. -/
def get_featured_artists (name : List Char) (song_data : List SongRec)
    (features_limit : Nat) (fuel : Nat) :
    Option (Except PyErr (List (List Char × Nat))) :=
  let _ := name
  featured_loop song_data features_limit fuel ⟨[], 0⟩

/-- Spec-side collaborator entry: a count together with the ordered list
of song titles on which the collaborator was observed. -/
structure CollabEntry where
  count : Nat
  songTitles : List (List Char)
deriving DecidableEq

/-- Spec-side insert-or-update for `aggregate`: a new key gets
count 1 and the one title, an existing key's count is incremented
and the title appended. -/
def bump_entry : List (List Char × CollabEntry) → List Char → List Char →
    List (List Char × CollabEntry)
  | [], a, title => [(a, ⟨1, [title]⟩)]
  | (k, e) :: rest, a, title =>
    if k = a then (k, ⟨e.count + 1, e.songTitles ++ [title]⟩) :: rest
    else (k, e) :: bump_entry rest a title

/-- The collaboration aggregator as the spec words it (`aggregate` in
spec section 4.5): iterate every record's primary and featured artist
lists; a token equal to `artistName` (case-sensitive) is skipped;
any other token gets a `CollabEntry` inserted or updated with the
record's title. -/
def aggregate_spec (artistName : List Char) (songs : List SongRec) :
    List (List Char × CollabEntry) :=
  songs.foldl
    (fun m s =>
      (s.primary_artists ++ s.featured_artists).foldl
        (fun acc t => if t = artistName then acc else bump_entry acc t s.title)
        m)
    []

/-- Count stored in the aggregation dict for key `k`, 0 when absent. -/
def lookupD (m : List (List Char × Nat)) (k : List Char) : Nat :=
  (m.lookup k).getD 0

/-- The observation tokens of one record, in the order the aggregation
loop of `app.get_featured_artists` visits them: the stripped primary
artists, then the stripped featured artists. -/
def song_tokens (s : SongRec) : List (List Char) :=
  s.primary_artists.map pyStrip ++ s.featured_artists.map pyStrip

/-- Number of observations of token `k` across a song list. -/
def nObs (k : List Char) (songs : List SongRec) : Nat :=
  (songs.map (fun s => (song_tokens s).count k)).sum

/-- The song-title list the spec associates with token `k`: one copy of a
record's title per observation of `k` on that record, in record order. -/
def obs_titles (k : List Char) (songs : List SongRec) : List (List Char) :=
  (songs.map (fun s => List.replicate ((song_tokens s).count k) s.title)).flatten

/-- The counting loop of `app.get_featured_artists` folded over a song
list (the artist-count dict after the loop has consumed exactly these
songs). -/
def agg_songs (songs : List SongRec) : List (List Char × Nat) :=
  songs.foldl count_song []

/-- The character-level effect of one `remove_unicode` pass with the
repository's `unicode_dict` (all four replacement targets and values are
single characters). -/
def unicode_char (c : Char) : Char :=
  let c1 := if c = '\u00A0' then ' ' else c
  let c2 := if c1 = '\u2019' then '\'' else c1
  let c3 := if c2 = '\u200B' then ' ' else c2
  if c3 = '\u0435' then 'e' else c3

/-- A lyrics-fetch oracle that always succeeds with empty lyrics. -/
def fetch_nil : List Char → Except PyErr (List Char) :=
  fun _ => .ok []

/-- A pattern with a single capturing group. -/
def c4_one_group : Regex := ⟨1, fun s => s⟩

/-- A pattern with three capturing groups. -/
def c4_three_groups : Regex := ⟨3, fun s => s⟩

/-- A replacement table whose value re-contains its target. -/
def c9_dict : List (List Char × List Char) := [(['a'], ['a', 'b'])]

/-- A record with a single primary artist. -/
def song_small : SongRec := ⟨"A".data, [], ["X".data], "/p".data, []⟩

/-- A record of song "A" by the queried artist "Y" together with ten
collaborators, enough distinct names to let the aggregation loop exceed
its default `features_limit` of 10 and return. -/
def song11 : SongRec :=
  ⟨"A".data, [],
    ["Y".data, "A0".data, "A1".data, "A2".data, "A3".data, "A4".data,
      "A5".data, "A6".data, "A7".data, "A8".data, "A9".data],
    "/p".data, []⟩

/-- The artist-count dict `app.get_featured_artists` builds from
`song11`. -/
def c1_result : List (List Char × Nat) :=
  [("Y".data, 1), ("A0".data, 1), ("A1".data, 1), ("A2".data, 1),
    ("A3".data, 1), ("A4".data, 1), ("A5".data, 1), ("A6".data, 1),
    ("A7".data, 1), ("A8".data, 1), ("A9".data, 1)]

/-- A search hit for song "A" at path `/a` by primary artist "X". -/
def hitA : Json :=
  .jobj [("result".data, .jobj
    [("full_title".data, .jstr "A".data),
      ("path".data, .jstr "/a".data),
      ("primary_artists".data, .jarr [.jobj [("name".data, .jstr "X".data)]])])]

/-- A search hit for song "B" at path `/b` by primary artist "W". -/
def hitB : Json :=
  .jobj [("result".data, .jobj
    [("full_title".data, .jstr "B".data),
      ("path".data, .jstr "/b".data),
      ("primary_artists".data, .jarr [.jobj [("name".data, .jstr "W".data)]])])]

/-- A decoded search response containing only `hitA`. -/
def bodyA : Json := .jobj [("response".data, .jobj [("hits".data, .jarr [hitA])])]

/-- A decoded search response containing only `hitB`. -/
def bodyB : Json := .jobj [("response".data, .jobj [("hits".data, .jarr [hitB])])]

/-- The record `parse_song` builds from `hitA`. -/
def recA : SongRec := ⟨"A".data, [], ["X".data], "/a".data, []⟩

/-- The record `parse_song` builds from `hitB`. -/
def recB : SongRec := ⟨"B".data, [], ["W".data], "/b".data, []⟩

example : extract_lyrics "Lyrics[abcEmbed".data "Lyrics[".data "Embed".data
    = "abc".data := by decide

example : extract_lyrics "no markers here".data "Lyrics[".data "Embed".data
    = "no markers here".data := by decide

example : remove_unicode "Fitz\u200Band\u00A0the\u00A0Tantrums".data unicode_dict
    = "Fitz and the Tantrums".data := by decide

example : remove_unicode "\u200B\u0435".data unicode_dict
    = " e".data := by decide

example : split_artist_names "Lana Del Rey, Calvin Harris, & Doja Cat".data
    = ["Lana Del Rey".data, "Calvin Harris".data, "Doja Cat".data] := by
  decide

example : split_artist_names "   & Lady Gaga & , & & SZA, Tame Impala,".data
    = ["Lady Gaga".data, "SZA".data, "Tame Impala".data] := by decide

example : split_artist_names "    ,   ,  ".data = [] := by decide

example : split_artist_names "J. Balvin & Bad Bunny & The Weekend & Rihanna ".data
    = ["J. Balvin".data, "Bad Bunny".data, "The Weekend".data,
        "Rihanna".data] := by decide

/-- C10: in `extract_lyrics`, an absent start pattern means extraction
starts at index 0; an absent end pattern means it extends to the end of
the blob (the full string when both are absent); and with the default
markers, extraction on `Lyrics[abcEmbed` yields `abc`. -/
theorem claim10_extract_defaults :
    (∀ blob s e : List Char, pyFind blob s = none → pyFind blob e = none →
        extract_lyrics blob s e = blob)
    ∧ (∀ (blob s e : List Char) (j : Nat), pyFind blob s = none →
        pyFind blob e = some j → extract_lyrics blob s e = blob.take j)
    ∧ extract_lyrics "Lyrics[abcEmbed".data "Lyrics[".data "Embed".data
        = "abc".data := by
  refine ⟨?_, ?_, by decide⟩
  · intro blob s e hs he
    simp [extract_lyrics, hs, he, pySlice]
  · intro blob s e j hs he
    simp [extract_lyrics, hs, he, pySlice]

/-- Witness for C10 at a concrete input: neither default marker occurs in
`abc`, so the whole blob is returned. -/
theorem claim10_witness :
    extract_lyrics "abc".data "X".data "Z".data = "abc".data :=
  claim10_extract_defaults.1 "abc".data "X".data "Z".data
    (by decide) (by decide)

/-- C2 counterexample: on `EmbedLyrics[abcEmbed` the end pattern occurs
both before and after the start pattern; the source cuts at the first
occurrence in the whole blob, yielding the empty string, while the
spec-side extractor (end searched after the start) yields `abc`. -/
theorem claim2_counterexample :
    extract_lyrics "EmbedLyrics[abcEmbed".data "Lyrics[".data "Embed".data
      = []
    ∧ extract_lyrics_spec "EmbedLyrics[abcEmbed".data "Lyrics[".data
        "Embed".data = "abc".data
    ∧ ([] : List Char) ≠ "abc".data := by
  exact ⟨by decide, by decide, by decide⟩

/-- C2 amended: `extract_lyrics` locates the end pattern from the
beginning of the blob, so whenever the first occurrence of the end
pattern starts before the position just after the start match, the
extracted slice is empty. -/
theorem claim2_amended (blob s e : List Char) (i j : Nat)
    (hs : pyFind blob s = some i) (he : pyFind blob e = some j)
    (hij : j < i + s.length) :
    extract_lyrics blob s e = [] := by
  simp only [extract_lyrics, hs, he, pySlice]
  exact List.drop_eq_nil_of_le
    (le_trans (List.length_take_le j blob) (Nat.le_of_lt hij))

/-- Witness for C2 at the counterexample blob. -/
theorem claim2_witness :
    pyFind "EmbedLyrics[abcEmbed".data "Lyrics[".data = some 5
    ∧ pyFind "EmbedLyrics[abcEmbed".data "Embed".data = some 0
    ∧ 0 < 5 + ("Lyrics[".data).length
    ∧ extract_lyrics "EmbedLyrics[abcEmbed".data "Lyrics[".data
        "Embed".data = [] :=
  ⟨by decide, by decide, by decide,
    claim2_amended "EmbedLyrics[abcEmbed".data "Lyrics[".data "Embed".data
      5 0 (by decide) (by decide) (by decide)⟩

/-- C7: a decoded body without the top-level `response` key makes
`parse_song` raise `ValueError` with the accumulator untouched: no
record of that call is appended. -/
theorem claim7_missing_response_key (fs : List (List Char × Json))
    (song_data : List SongRec) (flag : Bool)
    (fetch : List Char → Except PyErr (List Char))
    (h : jlookup fs "response".data = none) :
    parse_song (some (.jobj fs)) song_data flag fetch
      = (song_data, some .valueError) := by
  simp [parse_song, h]

/-- Witness for C7 at the body of the repository's unit test
(`{"test": 2}`). -/
theorem claim7_witness :
    parse_song (some (.jobj [("test".data, .jnum 2)])) [] true fetch_nil
      = ([], some .valueError) :=
  claim7_missing_response_key _ _ _ _ rfl

/-- C4 counterexample: with empty content, `insert_spaces` returns before
examining any pattern, so a one-group pattern is passed through silently
instead of raising. -/
theorem claim4_counterexample :
    insert_spaces [] [c4_one_group] = .ok [] := rfl

/-- C4 amended: for non-empty, non-whitespace-only content, a pattern
list containing a pattern with other than exactly two groups always makes
`insert_spaces` raise (a plain `Exception` for more than two groups, a
`ValueError` from `re.error` for fewer), and no result string is
returned. -/
theorem claim4_amended (content : List Char) (regex : List Regex)
    (h1 : content ≠ []) (h2 : pyIsSpace content = false)
    (h3 : ∃ p ∈ regex, p.groups ≠ 2) :
    ∃ e, insert_spaces content regex = .error e := by
  have hgo : ∀ (rs : List Regex) (cs : List Char),
      (∃ p ∈ rs, p.groups ≠ 2) →
      ∃ e, insert_spaces_go cs rs = .error e := by
    intro rs
    induction rs with
    | nil =>
      intro cs h
      rcases h with ⟨p, hp, _⟩
      exact absurd hp (List.not_mem_nil p)
    | cons p rest ih =>
      intro cs h
      rcases Nat.lt_trichotomy p.groups 2 with hlt | heq | hgt
      · have hng : ¬ p.groups > 2 := by omega
        exact ⟨.valueError, by simp [insert_spaces_go, hng, hlt]⟩
      · rcases h with ⟨q, hq, hqg⟩
        rcases List.mem_cons.mp hq with rfl | hq2
        · exact absurd heq hqg
        · have hng : ¬ p.groups > 2 := by omega
          have hnl : ¬ p.groups < 2 := by omega
          rcases ih (p.sub12 cs) ⟨q, hq2, hqg⟩ with ⟨e, he⟩
          exact ⟨e, by simp [insert_spaces_go, hng, hnl, he]⟩
      · exact ⟨.exception, by simp [insert_spaces_go, hgt]⟩
  have hcond : ¬ (content.length = 0 ∨ pyIsSpace content) := by
    rintro (hc | hc)
    · exact h1 (List.length_eq_zero.mp hc)
    · rw [h2] at hc
      exact Bool.noConfusion hc
  rcases hgo regex content h3 with ⟨e, he⟩
  exact ⟨e, by simp [insert_spaces, hcond, he, h1, h2]⟩

/-- Witness for C4: content `ab` with a three-group pattern raises. -/
theorem claim4_witness :
    ∃ e, insert_spaces "ab".data [c4_three_groups] = .error e :=
  claim4_amended "ab".data [c4_three_groups] (by decide) (by decide)
    ⟨c4_three_groups, List.Mem.head _, by decide⟩

/-- C9 counterexample: with the mapping `a ↦ ab`, one application of
`remove_unicode` maps `a` to `ab` but a second maps it on to `abb`, so
the operation is not idempotent for every replacement mapping. -/
theorem claim9_counterexample :
    remove_unicode (remove_unicode ['a'] c9_dict) c9_dict
      ≠ remove_unicode ['a'] c9_dict := by decide

/-- C3: the mutable default accumulator of `parse_song` is shared across
calls, so the second of two successive default-accumulator calls returns
the record parsed from the first call's response as well as its own. -/
theorem claim3_stale_accumulator :
    parse_song (some bodyA) [] true fetch_nil = ([recA], none)
    ∧ (parse_song (some bodyB)
        (parse_song (some bodyA) [] true fetch_nil).1 true fetch_nil).1
      = [recA, recB]
    ∧ recA ∈ (parse_song (some bodyB)
        (parse_song (some bodyA) [] true fetch_nil).1 true fetch_nil).1 := by
  exact ⟨rfl, rfl, by decide⟩

/-- C1: aggregating the catalog of artist `Y` (one song whose primary
artists include `Y` itself and ten collaborators), the loop of
`app.get_featured_artists` returns a map in which `Y` appears as a key
with count 1: the queried artist is counted as their own collaborator. -/
theorem claim1_self_counted :
    get_featured_artists "Y".data [song11] 10 2 = some (.ok c1_result)
    ∧ c1_result.lookup "Y".data = some 1 :=
  ⟨rfl, rfl⟩

/-- The aggregation loop never terminates on an empty song list: the
artist-count dict stays empty, so the guard `len <= features_limit`
holds forever and only `song_index` advances. -/
theorem featured_loop_empty_runs_forever (limit : Nat) :
    ∀ (fuel i : Nat), featured_loop [] limit fuel ⟨[], i⟩ = none := by
  intro fuel
  induction fuel with
  | zero => intro i; rfl
  | succ n ih =>
    intro i
    simpa [featured_loop, featured_step] using ih (i + 1)

/-- C5: `app.get_featured_artists` does not terminate on an empty song
list (for any fuel the loop is still running), and on a short song list
with fewer distinct collaborators than the features limit it raises
`IndexError` by indexing past the end of the list. -/
theorem claim5_termination_failure :
    (∀ (name : List Char) (fuel : Nat),
        get_featured_artists name [] 10 fuel = none)
    ∧ get_featured_artists "Y".data [song_small] 10 20
        = some (.error .indexError) := by
  refine ⟨?_, rfl⟩
  intro name fuel
  exact featured_loop_empty_runs_forever 10 fuel 0

/-- C6 counterexample: on the catalog of artist `Y`, the code's
aggregation result binds the bare count 1 to the key `Y`, while the
spec's recurrence (count-and-titles entries, the queried artist skipped)
produces no entry at all for `Y` — the code result carries neither the
spec's keys nor its `songTitles` component. -/
theorem claim6_counterexample :
    get_featured_artists "Y".data [song11] 10 2 = some (.ok c1_result)
    ∧ c1_result.lookup "Y".data = some 1
    ∧ (aggregate_spec "Y".data [song11]).lookup "Y".data = none :=
  ⟨rfl, rfl, rfl⟩

/-- Replacement of a single-character target by a single-character value
acts pointwise on the string. -/
theorem strReplaceFuel_single (a b : Char) :
    ∀ (fuel : Nat) (s : List Char), s.length ≤ fuel →
    strReplaceFuel fuel s [a] [b]
      = s.map (fun c => if c = a then b else c) := by
  intro fuel
  induction fuel with
  | zero =>
    intro s hs
    have hnil : s = [] := List.length_eq_zero.mp (Nat.le_zero.mp hs)
    subst hnil
    rfl
  | succ n ih =>
    intro s hs
    cases s with
    | nil => rfl
    | cons c t =>
      have ht : t.length ≤ n := by
        simpa using Nat.le_of_succ_le_succ hs
      by_cases hca : c = a
      · subst hca
        have hpre : ([c].isPrefixOf (c :: t)) = true := by
          simp [List.isPrefixOf]
        simp only [strReplaceFuel, List.map_cons]
        rw [if_pos ⟨by simp, hpre⟩]
        simp [ih t ht]
      · have hpre : ([a].isPrefixOf (c :: t)) = false := by
          simp only [List.isPrefixOf, Bool.and_true]
          exact beq_eq_false_iff_ne.mpr (Ne.symm hca)
        simp only [strReplaceFuel, List.map_cons]
        rw [if_neg ?hneg]
        case hneg =>
          rintro ⟨-, hp⟩
          rw [hpre] at hp
          exact Bool.noConfusion hp
        rw [ih t ht, if_neg hca]

/-- `strReplace` with single-character target and value is a `map`. -/
theorem strReplace_single (s : List Char) (a b : Char) :
    strReplace s [a] [b] = s.map (fun c => if c = a then b else c) :=
  strReplaceFuel_single a b s.length s le_rfl

/-- A `remove_unicode` pass with the repository's table is the pointwise
map `unicode_char` (outside the whitespace guard). -/
theorem remove_unicode_config (content : List Char)
    (h : ¬ (content.length = 0 ∨ pyIsSpace content)) :
    remove_unicode content unicode_dict = content.map unicode_char := by
  rw [remove_unicode, if_neg h]
  simp only [unicode_dict, List.foldl_cons, List.foldl_nil]
  rw [strReplace_single, strReplace_single, strReplace_single,
    strReplace_single]
  simp only [List.map_map]
  rfl

/-- The pointwise replacement `unicode_char` is idempotent: its values
(space, apostrophe, `e`) are not themselves replacement targets. -/
theorem unicode_char_idem (c : Char) :
    unicode_char (unicode_char c) = unicode_char c := by
  by_cases h1 : c = '\u00A0'
  · subst h1; decide
  by_cases h2 : c = '\u2019'
  · subst h2; decide
  by_cases h3 : c = '\u200B'
  · subst h3; decide
  by_cases h4 : c = '\u0435'
  · subst h4; decide
  have hc : unicode_char c = c := by
    simp [unicode_char, h1, h2, h3, h4]
  rw [hc, hc]

/-- C9 amended: with the repository's replacement table `unicode_dict`
(whose plain-text values contain no replacement target),
`remove_unicode` is idempotent on every input string. -/
theorem claim9_idempotent_config (content : List Char) :
    remove_unicode (remove_unicode content unicode_dict) unicode_dict
      = remove_unicode content unicode_dict := by
  by_cases h : content.length = 0 ∨ pyIsSpace content
  · have h0 : remove_unicode content unicode_dict = content := by
      rw [remove_unicode, if_pos h]
    rw [h0]
    exact h0
  · rw [remove_unicode_config content h]
    by_cases h2 : (content.map unicode_char).length = 0
        ∨ pyIsSpace (content.map unicode_char)
    · rw [remove_unicode, if_pos h2]
    · rw [remove_unicode_config _ h2, List.map_map]
      have hfun : ∀ c ∈ content, (unicode_char ∘ unicode_char) c = unicode_char c := by
        intro c _
        simp only [Function.comp_apply]
        exact unicode_char_idem c
      exact List.map_congr_left hfun

/-- Stripping only removes characters. -/
theorem mem_of_mem_pyStrip {c : Char} {s : List Char}
    (h : c ∈ pyStrip s) : c ∈ s := by
  unfold pyStrip at h
  rw [List.mem_reverse] at h
  have h1 : c ∈ (s.dropWhile pyWs).reverse :=
    (List.dropWhile_sublist pyWs).subset h
  rw [List.mem_reverse] at h1
  exact (List.dropWhile_sublist pyWs).subset h1

/-- A string of whitespace characters strips to the empty string. -/
theorem pyStrip_eq_nil_of_all_ws {s : List Char}
    (h : ∀ c ∈ s, pyWs c = true) : pyStrip s = [] := by
  have h1 : s.dropWhile pyWs = [] := List.dropWhile_eq_nil_iff.mpr h
  simp [pyStrip, h1]

/-- Every delimiter match consumes at least one character. -/
theorem delim_match_pos {cs : List Char} {n : Nat}
    (h : delim_match cs = some n) : 1 ≤ n := by
  simp only [delim_match] at h
  split_ifs at h
  · cases h; omega
  · cases h; omega

/-- At a comma the first alternative matches (a comma is not
whitespace, so the whitespace run in front of it is empty). -/
theorem delim_match_cons_comma (t : List Char) :
    delim_match (',' :: t) = some 1 := by
  have hws : pyWs ',' = false := by decide
  simp [delim_match, List.takeWhile_cons, hws]

/-- At an ampersand the second alternative matches. -/
theorem delim_match_cons_amp (t : List Char) :
    delim_match ('&' :: t) = some (1 + (t.takeWhile pyWs).length) := by
  have hws : pyWs '&' = false := by decide
  have hne : ('&' : Char) ≠ ',' := by decide
  simp [delim_match, List.takeWhile_cons, hws, hne]

/-- Splitting a string of delimiters and whitespace only (with a
whitespace-only accumulator) yields pieces of whitespace only: every
comma or ampersand starts a delimiter match, so neither ever lands in a
piece. -/
theorem resplit_pieces_ws :
    ∀ (fuel : Nat) (cs acc : List Char), cs.length ≤ fuel →
    (∀ c ∈ cs, c = ',' ∨ c = '&' ∨ pyWs c = true) →
    (∀ c ∈ acc, pyWs c = true) →
    ∀ piece ∈ resplit_aux fuel cs acc, ∀ c ∈ piece, pyWs c = true := by
  intro fuel
  induction fuel with
  | zero =>
    intro cs acc hlen _ hacc piece hpiece c hc
    have hnil : cs = [] := List.length_eq_zero.mp (Nat.le_zero.mp hlen)
    subst hnil
    simp only [resplit_aux, List.append_nil, List.mem_singleton] at hpiece
    subst hpiece
    exact hacc c (List.mem_reverse.mp hc)
  | succ n ih =>
    intro cs acc hlen hcs hacc piece hpiece
    cases cs with
    | nil =>
      simp only [resplit_aux, List.mem_singleton] at hpiece
      subst hpiece
      intro c hc
      exact hacc c (List.mem_reverse.mp hc)
    | cons d t =>
      cases hdm : delim_match (d :: t) with
      | some m =>
        simp only [resplit_aux, hdm] at hpiece
        rcases List.mem_cons.mp hpiece with rfl | hrec
        · intro c hc
          exact hacc c (List.mem_reverse.mp hc)
        · have hm1 : 1 ≤ m := delim_match_pos hdm
          refine ih ((d :: t).drop m) [] ?_ ?_ (by simp) piece hrec
          · have hd : ((d :: t).drop m).length = (d :: t).length - m :=
              List.length_drop m (d :: t)
            have hl : (d :: t).length ≤ n + 1 := hlen
            simp only [List.length_cons] at hd hl
            omega
          · intro c hc
            exact hcs c (List.drop_subset m (d :: t) hc)
      | none =>
        have hd : pyWs d = true := by
          rcases hcs d (List.mem_cons_self d t) with h | h | h
          · subst h; rw [delim_match_cons_comma] at hdm; cases hdm
          · subst h; rw [delim_match_cons_amp] at hdm; cases hdm
          · exact h
        simp only [resplit_aux, hdm] at hpiece
        refine ih t (d :: acc) ?_ ?_ ?_ piece hpiece
        · simpa using Nat.le_of_succ_le_succ hlen
        · intro c hc
          exact hcs c (List.mem_cons_of_mem d hc)
        · intro c hc
          rcases List.mem_cons.mp hc with rfl | hc2
          · exact hd
          · exact hacc c hc2

/-- C8: for every input made only of delimiter characters (commas,
ampersands) and whitespace — including empty and whitespace-only input —
`split_artist_names` returns the empty list (and, being total, does not
raise). -/
theorem claim8_delimiters_only (s : List Char)
    (h : ∀ c ∈ s, c = ',' ∨ c = '&' ∨ pyWs c = true) :
    split_artist_names s = [] := by
  unfold split_artist_names
  by_cases hg : s.length = 0 ∨ pyIsSpace s
  · rw [if_pos hg]
  · rw [if_neg hg]
    show ((resplit_aux ((pyStrip s).length + 1) (pyStrip s) []).map
        pyStrip).filter (fun t => t ≠ []) = []
    refine List.filter_eq_nil_iff.mpr ?_
    intro a ha
    rcases List.mem_map.mp ha with ⟨piece, hpiece, rfl⟩
    have hws : ∀ c ∈ piece, pyWs c = true :=
      resplit_pieces_ws ((pyStrip s).length + 1) (pyStrip s) []
        (Nat.le_succ _)
        (fun c hc => h c (mem_of_mem_pyStrip hc))
        (by simp) piece hpiece
    simp [pyStrip_eq_nil_of_all_ws hws]

/-- Witness for C8 at a concrete delimiter-and-whitespace input. -/
theorem claim8_witness : split_artist_names " , & ".data = [] :=
  claim8_delimiters_only " , & ".data (by decide)

/-- Inserting or incrementing key `a` raises the stored count of `a` by
one and leaves every other count unchanged. -/
theorem bump_lookupD (m : List (List Char × Nat)) (a k : List Char) :
    lookupD (bump m a) k = lookupD m k + (if k = a then 1 else 0) := by
  induction m with
  | nil =>
    by_cases h : k = a
    · subst h; simp [bump, lookupD, List.lookup]
    · have hb : (k == a) = false := beq_eq_false_iff_ne.mpr h
      simp [bump, lookupD, List.lookup, hb, h]
  | cons p rest ih =>
    obtain ⟨k1, c1⟩ := p
    by_cases h1 : k1 = a
    · subst h1
      by_cases h2 : k = k1
      · subst h2; simp [bump, lookupD, List.lookup]
      · have hb : (k == k1) = false := beq_eq_false_iff_ne.mpr h2
        simp [bump, lookupD, List.lookup, hb, h2]
    · by_cases h2 : k = k1
      · subst h2
        simp [bump, lookupD, List.lookup, h1]
      · have hb : (k == k1) = false := beq_eq_false_iff_ne.mpr h2
        simp only [bump, if_neg h1, lookupD, List.lookup, hb]
        exact ih

/-- Counting a list of names adds, for each key, the number of
occurrences of that key among the stripped names. -/
theorem count_artists_lookupD (names : List (List Char))
    (m : List (List Char × Nat)) (k : List Char) :
    lookupD (count_artists m names) k
      = lookupD m k + (names.map pyStrip).count k := by
  induction names generalizing m with
  | nil => simp [count_artists]
  | cons a rest ih =>
    have hstep : count_artists m (a :: rest)
        = count_artists (bump m (pyStrip a)) rest := rfl
    rw [hstep, ih, bump_lookupD]
    have hcount : ((a :: rest).map pyStrip).count k
        = (rest.map pyStrip).count k + (if k = pyStrip a then 1 else 0) := by
      rw [List.map_cons, List.count_cons]
      by_cases hk : k = pyStrip a
      · have hb : (k == pyStrip a) = true := beq_iff_eq.mpr hk
        simp [hb, hk]
      · have hb : (k == pyStrip a) = false := beq_eq_false_iff_ne.mpr hk
        have hk2 : ¬ pyStrip a = k := fun hh => hk hh.symm
        simp [hb, hk, hk2]
    rw [hcount]
    omega

/-- Counting one song adds its token occurrences. -/
theorem count_song_lookupD (s : SongRec) (m : List (List Char × Nat))
    (k : List Char) :
    lookupD (count_song m s) k = lookupD m k + (song_tokens s).count k := by
  unfold count_song song_tokens
  rw [count_artists_lookupD, count_artists_lookupD, List.count_append]
  omega

/-- Folding the counting loop over a song list adds each key's total
observation count. -/
theorem agg_fold_lookupD :
    ∀ (songs : List SongRec) (m : List (List Char × Nat)) (k : List Char),
    lookupD (songs.foldl count_song m) k = lookupD m k + nObs k songs := by
  intro songs
  induction songs with
  | nil => intro m k; simp [nObs]
  | cons s rest ih =>
    intro m k
    have hstep : (s :: rest).foldl count_song m
        = rest.foldl count_song (count_song m s) := rfl
    rw [hstep, ih, count_song_lookupD]
    simp [nObs]
    omega

/-- The dict built from a song list stores exactly the observation
counts. -/
theorem agg_songs_lookupD (songs : List SongRec) (k : List Char) :
    lookupD (agg_songs songs) k = nObs k songs := by
  unfold agg_songs
  rw [agg_fold_lookupD]
  simp [lookupD, List.lookup]

/-- `bump` keeps every stored count at least 1. -/
theorem bump_pos :
    ∀ (m : List (List Char × Nat)) (a : List Char),
    (∀ p ∈ m, 1 ≤ p.2) → ∀ p ∈ bump m a, 1 ≤ p.2 := by
  intro m
  induction m with
  | nil =>
    intro a _ p hp
    simp only [bump, List.mem_singleton] at hp
    subst hp
    exact le_refl 1
  | cons q rest ih =>
    obtain ⟨k1, c1⟩ := q
    intro a h p hp
    by_cases h1 : k1 = a
    · subst h1
      have hb : bump ((k1, c1) :: rest) k1 = (k1, c1 + 1) :: rest := by
        simp [bump]
      rw [hb] at hp
      rcases List.mem_cons.mp hp with hp1 | hp2
      · rw [hp1]; simp
      · exact h p (List.mem_cons_of_mem _ hp2)
    · have hb : bump ((k1, c1) :: rest) a = (k1, c1) :: bump rest a := by
        simp [bump, h1]
      rw [hb] at hp
      rcases List.mem_cons.mp hp with hp1 | hp2
      · rw [hp1]
        exact h (k1, c1) (List.mem_cons_self _ _)
      · exact ih a (fun q hq => h q (List.mem_cons_of_mem _ hq)) p hp2

/-- `count_artists` keeps every stored count at least 1. -/
theorem count_artists_pos :
    ∀ (names : List (List Char)) (m : List (List Char × Nat)),
    (∀ p ∈ m, 1 ≤ p.2) → ∀ p ∈ count_artists m names, 1 ≤ p.2 := by
  intro names
  induction names with
  | nil => intro m h; exact h
  | cons a rest ih =>
    intro m h
    exact ih (bump m (pyStrip a)) (bump_pos m (pyStrip a) h)

/-- Every count in the dict built from a song list is at least 1. -/
theorem agg_songs_pos :
    ∀ (songs : List SongRec) (m : List (List Char × Nat)),
    (∀ p ∈ m, 1 ≤ p.2) → ∀ p ∈ songs.foldl count_song m, 1 ≤ p.2 := by
  intro songs
  induction songs with
  | nil => intro m h; exact h
  | cons s rest ih =>
    intro m h
    refine ih (count_song m s) ?_
    exact count_artists_pos s.featured_artists _
      (count_artists_pos s.primary_artists m h)

/-- A successful association-list lookup comes from a member pair. -/
theorem agg_mem_of_lookup_eq_some :
    ∀ (m : List (List Char × Nat)) (k : List Char) (c : Nat),
    m.lookup k = some c → (k, c) ∈ m := by
  intro m
  induction m with
  | nil => intro k c h; simp [List.lookup] at h
  | cons q rest ih =>
    obtain ⟨k1, c1⟩ := q
    intro k c h
    by_cases hk : k = k1
    · subst hk
      simp [List.lookup] at h
      subst h
      exact List.mem_cons_self _ _
    · have hb : (k == k1) = false := beq_eq_false_iff_ne.mpr hk
      simp [List.lookup, hb] at h
      exact List.mem_cons_of_mem _ (ih k c h)

/-- The spec's per-key title list has exactly one title per observation,
so its length is the observation count. -/
theorem obs_titles_length (k : List Char) (songs : List SongRec) :
    (obs_titles k songs).length = nObs k songs := by
  unfold obs_titles nObs
  rw [List.length_flatten, List.map_map]
  have hfun : ∀ s ∈ songs,
      (List.length ∘ fun s => List.replicate ((song_tokens s).count k) s.title) s
        = (song_tokens s).count k := by
    intro s _
    simp
  rw [List.map_congr_left hfun]

/-- Whenever the aggregation loop of `app.get_featured_artists` returns
normally from the initial state, the returned dict is the counting fold
over a prefix of the song list. -/
theorem featured_loop_ok :
    ∀ (fuel : Nat) (songs : List SongRec) (limit n : Nat)
      (m : List (List Char × Nat)),
    featured_loop songs limit fuel ⟨agg_songs (songs.take n), n⟩
        = some (.ok m) →
    ∃ j, m = agg_songs (songs.take j) := by
  intro fuel
  induction fuel with
  | zero =>
    intro songs limit n m h
    simp [featured_loop] at h
  | succ f ih =>
    intro songs limit n m h
    simp only [featured_loop] at h
    by_cases hguard : (agg_songs (songs.take n)).length ≤ limit
    · rw [if_pos hguard] at h
      cases songs with
      | nil =>
        simp only [featured_step, List.isEmpty_nil, if_pos] at h
        simp only [List.take_nil] at h
        have h2 : featured_loop [] limit f
            ⟨agg_songs (([] : List SongRec).take (n + 1)), n + 1⟩
            = some (.ok m) := by
          simpa [List.take_nil] using h
        exact ih [] limit (n + 1) m h2
      | cons s0 ss =>
        by_cases hidx : n < (s0 :: ss).length
        · have hget2 : (s0 :: ss)[n]? = some (s0 :: ss)[n] :=
            List.getElem?_eq_getElem hidx
          have hget1 : (s0 :: ss).get? n = some (s0 :: ss)[n] := by
            rw [List.get?_eq_getElem?]
            exact hget2
          simp only [featured_step, List.isEmpty_cons, Bool.false_eq_true,
            if_false, hget1] at h
          have hagg : count_song (agg_songs ((s0 :: ss).take n))
              (s0 :: ss)[n]
              = agg_songs ((s0 :: ss).take (n + 1)) := by
            rw [List.take_succ, hget2]
            unfold agg_songs
            rw [List.foldl_append]
            rfl
          rw [hagg] at h
          exact ih (s0 :: ss) limit (n + 1) m h
        · have hget2 : (s0 :: ss)[n]? = none :=
            List.getElem?_eq_none (Nat.le_of_not_lt hidx)
          simp [featured_step, hget2] at h
    · rw [if_neg hguard] at h
      exact ⟨n, (Except.ok.inj (Option.some.inj h)).symm⟩

/-- C6 amended: every normal return of the aggregation loop is the
counting fold over some prefix of the song list, and for every key it
binds, the bound count equals the number of observations of that key
(one per stripped primary or featured credit) over that prefix, equals
the length of the spec's per-observation song-title list, and is at
least 1.  The code stores the bare count only; no song-title list is
kept in the result. -/
theorem claim6_amended (songs : List SongRec) (limit fuel : Nat)
    (m : List (List Char × Nat))
    (h : featured_loop songs limit fuel ⟨[], 0⟩ = some (.ok m)) :
    ∃ j, ∀ key c, m.lookup key = some c →
      c = nObs key (songs.take j)
      ∧ c = (obs_titles key (songs.take j)).length
      ∧ 1 ≤ c := by
  obtain ⟨j, rfl⟩ := featured_loop_ok fuel songs limit 0 m h
  refine ⟨j, ?_⟩
  intro key c hlook
  have hmem : (key, c) ∈ agg_songs (songs.take j) :=
    agg_mem_of_lookup_eq_some _ key c hlook
  have hpos : 1 ≤ c :=
    agg_songs_pos (songs.take j) [] (by simp) (key, c) hmem
  have hc : c = nObs key (songs.take j) := by
    have hl := agg_songs_lookupD (songs.take j) key
    rw [lookupD, hlook] at hl
    simpa using hl
  refine ⟨hc, ?_, hpos⟩
  rw [hc, obs_titles_length]

/-- Witness for C6 at the `song11` catalog: the loop returns
`c1_result`, so each bound count matches the observation count over the
processed prefix. -/
theorem claim6_witness :
    ∃ j, ∀ key c, c1_result.lookup key = some c →
      c = nObs key ([song11].take j)
      ∧ c = (obs_titles key ([song11].take j)).length
      ∧ 1 ≤ c :=
  claim6_amended [song11] 10 2 c1_result rfl

end SongAnalysis
